import Mathlib

/-
Verification of the richter wgpu renderer (src/client/render/wgpu/mod.rs).

Scalar values of type `f32` are modelled by an arbitrary commutative ring `R`;
the degree-based trigonometric functions used by cgmath's Euler-to-matrix
conversion are abstracted into a `Trig` structure (`sinDeg θ` is the sine of
the angle `θ` measured in degrees).  All matrix definitions below transcribe
the cgmath operations used by the source (`Matrix4::from_translation`,
`Matrix4::from(Euler::new(..))`, matrix multiplication); cgmath stores
matrices column-major but implements the standard mathematical product, so we
embed the mathematical matrix with `Matrix (Fin 4) (Fin 4) R`.
-/

namespace Richter

/-- Abstract trigonometric functions on angles measured in degrees
(models `cgmath::Rad::sin_cos` composed with the `Deg -> Rad` conversion). -/
structure Trig (R : Type) where
  sinDeg : R → R
  cosDeg : R → R

/-- A three-component vector, modelling `cgmath::Vector3<f32>` (also used for
`Vector3<Deg<f32>>`, a vector of three Euler angles). -/
structure V3 (R : Type) where
  x : R
  y : R
  z : R
deriving DecidableEq

/-- Componentwise negation of a `Vector3` (cgmath's `Neg` impl). -/
def neg3 {R : Type} [CommRing R] (v : V3 R) : V3 R :=
  ⟨-v.x, -v.y, -v.z⟩

/-- The axis-convention change `convert(x, y, z) = (-y, z, -x)` used by both
`Camera::new` and `Renderer::calculate_transform`. -/
def convert {R : Type} [CommRing R] (v : V3 R) : V3 R :=
  ⟨-v.y, v.z, -v.x⟩

/-- 4x4 matrices over the scalar ring, modelling `cgmath::Matrix4<f32>`. -/
abbrev Mat4 (R : Type) := Matrix (Fin 4) (Fin 4) R

/-- Transcription of `cgmath::Matrix4::from_translation(v)`: the identity with
`v` in the last column. -/
def from_translation {R : Type} [CommRing R] (v : V3 R) : Mat4 R :=
  !![1, 0, 0, v.x;
     0, 1, 0, v.y;
     0, 0, 1, v.z;
     0, 0, 0, 1]

/-- Transcription of cgmath's `Matrix4::from(Euler::new(x, y, z))` (cgmath
writes the columns; this is the same matrix written by rows). -/
def matFromEuler {R : Type} [CommRing R] (t : Trig R) (e : V3 R) : Mat4 R :=
  let sx := t.sinDeg e.x
  let cx := t.cosDeg e.x
  let sy := t.sinDeg e.y
  let cy := t.cosDeg e.y
  let sz := t.sinDeg e.z
  let cz := t.cosDeg e.z
  !![cy * cz,                -(cy * sz),             sy,         0;
     cx * sz + sx * sy * cz, cx * cz - sx * sy * sz, -(sx * cy), 0;
     sx * sz - cx * sy * cz, sx * cz + cx * sy * sz, cx * cy,    0;
     0,                      0,                      0,          1]

/-- The `Camera` struct of mod.rs: origin, angles, and the derived transform. -/
structure Camera (R : Type) where
  origin : V3 R
  angles : V3 R
  transform : Mat4 R

/-- Transcription of `Camera::new` (mod.rs lines 423-439): converts the origin
to the renderer's axis convention, translates by its negation, rotates by
`Euler::new(angles.x, -angles.y, -angles.z)`, and composes with the supplied
projection matrix. -/
def Camera.new {R : Type} [CommRing R] (t : Trig R) (origin angles : V3 R)
    (projection : Mat4 R) : Camera R :=
  let converted_origin : V3 R := ⟨-origin.y, origin.z, -origin.x⟩
  let translation := from_translation (neg3 converted_origin)
  let rotationMat := matFromEuler t ⟨angles.x, -angles.y, -angles.z⟩
  { origin := origin
    angles := angles
    transform := projection * rotationMat * translation }

/-- Trigonometric functions instantiated at rationals for concrete witnesses:
a trig table that is exact at angle 0. -/
def qTrig : Trig ℚ := ⟨fun _ => 0, fun _ => 1⟩

/-- Modelled from the spec: the sprite kind tag (`common/sprite.rs` is not
under src/).  The spec distinguishes the sprite kind tagged "oriented" (used
for decals) from every other kind; the remaining variants are Quake's
view-plane-aligned and upright billboard kinds. -/
inductive SpriteKind
  | Oriented
  | ViewPlaneParallelUpright
  | FacingUpright
  | ViewPlaneParallel
  | ViewPlaneParallelOriented
deriving DecidableEq

/-- Modelled from the spec: the model kind variants (`common/model.rs` is not
under src/): a keyframe-animated (alias) model, static (brush) geometry, a
billboard sprite carrying its sprite kind, and a catch-all for any model kind
the renderer does not support (the wildcard arm of `Renderer::new`). -/
inductive ModelKind
  | Alias
  | Brush
  | Sprite (kind : SpriteKind)
  | NoModel
deriving DecidableEq

/-- The `EntityRenderer` sum type of mod.rs (lines 901-906), with each
sub-renderer reduced to its dispatch-relevant data: the sprite sub-renderer
keeps the sprite kind that `SpriteRenderer::kind()` exposes, the others carry
no data the dispatch logic inspects. -/
inductive EntityRenderer
  | Alias
  | Brush
  | Sprite (kind : SpriteKind)
  | None
deriving DecidableEq

/-- Modelled from the spec: the per-frame `ClientEntity` (client module, not
under src/): a model index plus origin, three Euler angles, an animation frame
id and a skin id, matching the accessors mod.rs calls. -/
structure ClientEntity (R : Type) where
  model_id : Nat
  origin : V3 R
  angles : V3 R
  frame_id : Nat
  skin_id : Nat
deriving DecidableEq

/-- The classification performed on every non-world model by the loop in
`Renderer::new` (mod.rs lines 946-969). -/
def classify : ModelKind → EntityRenderer
  | ModelKind.Alias => EntityRenderer.Alias
  | ModelKind.Brush => EntityRenderer.Brush
  | ModelKind.Sprite k => EntityRenderer.Sprite k
  | ModelKind.NoModel => EntityRenderer.None

/-- The model loop of `Renderer::new` (mod.rs lines 934-971): walks the
enumerated model list, requires the model at the world index to be brush
geometry (else the code panics with "Invalid worldmodel", modelled as `none`)
and pushes one classified entity renderer for every other model, in order. -/
def entityRenderersLoop (world : Nat) :
    List (Nat × ModelKind) → Option (List EntityRenderer)
  | [] => some []
  | (i, m) :: rest =>
    if i = world then
      match m with
      | ModelKind.Brush => entityRenderersLoop world rest
      | _ => none
    else
      Option.map (fun l => classify m :: l) (entityRenderersLoop world rest)

/-- `Renderer::new` reduced to the dispatch table it constructs.  `none`
models the construction panics: an invalid world model, or
`world_renderer.unwrap()` when the world index never occurs. -/
def rendererNew (models : List ModelKind) (worldmodel_id : Nat) :
    Option (List EntityRenderer) :=
  if worldmodel_id < models.length then
    entityRenderersLoop worldmodel_id models.enum
  else none

/-- `Renderer::renderer_for_entity` (mod.rs lines 1197-1200) on a bare model
id: indexes the renderer list at `model_id - 1`.  In Rust `model_id` is a
`usize`, so id 0 underflows and any out-of-range index panics; both are
modelled as `none`. -/
def renderer_for_model_id (entity_renderers : List EntityRenderer)
    (model_id : Nat) : Option EntityRenderer :=
  if model_id = 0 then none
  else entity_renderers[model_id - 1]?

/-- `Renderer::renderer_for_entity`: looks up the sub-renderer for the
entity's model id. -/
def renderer_for_entity {R : Type} (entity_renderers : List EntityRenderer)
    (ent : ClientEntity R) : Option EntityRenderer :=
  renderer_for_model_id entity_renderers ent.model_id

/-- Transcription of `Renderer::calculate_transform` (mod.rs lines 1202-1223):
chooses the Euler angles according to the entity's sub-renderer (sprites other
than oriented ones substitute the negated camera pitch/yaw, keeping the
entity's roll), then composes camera transform, converted-origin translation
and the Euler rotation.  The sub-renderer lookup panics on a bad model id,
modelled as `none`. -/
def calculate_transform {R : Type} [CommRing R] (t : Trig R)
    (entity_renderers : List EntityRenderer) (camera : Camera R)
    (entity : ClientEntity R) : Option (Mat4 R) :=
  match renderer_for_entity entity_renderers entity with
  | Option.none => Option.none
  | some er =>
    let origin := entity.origin
    let angles := entity.angles
    let euler : V3 R :=
      match er with
      | EntityRenderer.Sprite kind =>
        match kind with
        | SpriteKind.Oriented => ⟨angles.x, angles.y, angles.z⟩
        | _ =>
          let inv_cam_angles := neg3 camera.angles
          ⟨inv_cam_angles.x, inv_cam_angles.y, angles.z⟩
      | _ => ⟨angles.x, angles.y, angles.z⟩
    some (camera.transform
      * from_translation ⟨-origin.y, origin.z, -origin.x⟩
      * matFromEuler t euler)

/-- A camera fixture for witnesses. -/
def demoCam : Camera ℚ := Camera.new qTrig ⟨0, 0, 0⟩ ⟨30, 45, 60⟩ 1

/-- An entity fixture for witnesses: references model id 1. -/
def demoEnt : ClientEntity ℚ := ⟨1, ⟨1, 2, 3⟩, ⟨4, 5, 6⟩, 0, 0⟩

/-- Modelled from the spec: a `DynamicUniformBufferBlock` handle is a
(buffer, byte-offset) pair identifying one allocation inside a
`DynamicUniformBuffer` (`uniform.rs` is not under src/); the buffer component
is implicit in where the handle is stored, so the model keeps the offset. -/
structure DynamicUniformBufferBlock where
  offset : Nat
deriving DecidableEq

/-- Modelled from the spec: `stride = round_up(size_of(T), alignment)` — the
smallest multiple of the alignment that is at least the struct size. -/
def uStride (align size : Nat) : Nat :=
  align * ((size + align - 1) / align)

/-- Modelled from the spec: the `DynamicUniformBuffer<T>` allocator
(`uniform.rs` is not under src/): a device alignment, the element type's
byte size, the staged element list, and the contents last flushed to the GPU.
Byte contents are represented element-wise; offsets are byte offsets. -/
structure DynamicUniformBuffer (α : Type) where
  align : Nat
  size : Nat
  staged : List α
  gpu : List α
deriving DecidableEq

/-- The alignment-padded stride of one element of this buffer. -/
def DynamicUniformBuffer.stride {α : Type} (b : DynamicUniformBuffer α) : Nat :=
  uStride b.align b.size

/-- Modelled from the spec: `allocate(value)` appends one element and returns
a handle whose byte offset is the element count times the stride. -/
def DynamicUniformBuffer.allocate {α : Type} (b : DynamicUniformBuffer α)
    (v : α) : DynamicUniformBuffer α × DynamicUniformBufferBlock :=
  ({ b with staged := b.staged ++ [v] }, ⟨b.staged.length * b.stride⟩)

/-- Modelled from the spec: `write_block(handle, value)` overwrites the staged
value at that handle's offset; no GPU-visible effect until flush. -/
def DynamicUniformBuffer.write_block {α : Type} (b : DynamicUniformBuffer α)
    (blk : DynamicUniformBufferBlock) (v : α) : DynamicUniformBuffer α :=
  { b with staged := b.staged.set (blk.offset / b.stride) v }

/-- Modelled from the spec: `flush(queue)` copies the entire staged region to
the GPU in one transfer. -/
def DynamicUniformBuffer.flush {α : Type} (b : DynamicUniformBuffer α) :
    DynamicUniformBuffer α :=
  { b with gpu := b.staged }

/-- Modelled from the spec: `clear()` invalidates every outstanding handle and
resets the buffer to zero elements. -/
def DynamicUniformBuffer.clear {α : Type} (b : DynamicUniformBuffer α) :
    DynamicUniformBuffer α :=
  { b with staged := [] }

/-- Events of one frame, used to express the ordering of the uniform-update
phase and the draw-recording phase of `Renderer::render_pass`. -/
inductive FrameEvent
  | writeFrameUniforms
  | writeEntityBlock
  | allocEntityBlock
  | flushEntityBuffer
  | clearGlyphBuffer
  | writeGlyphBlock
  | allocGlyphBlock
  | flushGlyphBuffer
  | beginPass
  | recordDrawCommand
  | submit
deriving DecidableEq

/-- Result of the write-or-allocate loop: the updated buffer, the updated
block list, and the buffer events emitted, in order. -/
structure LoopResult (α : Type) where
  buf : DynamicUniformBuffer α
  blocks : List DynamicUniformBufferBlock
  events : List FrameEvent
deriving DecidableEq

/-- Prepends one event to a loop result. -/
def LoopResult.consEvent {α : Type} (e : FrameEvent) (r : LoopResult α) :
    LoopResult α :=
  ⟨r.buf, r.blocks, e :: r.events⟩

/-- The write-or-allocate loop shared by the entity and glyph phases of
`Renderer::update_uniform_buffers` (mod.rs lines 1026-1043 and 1061-1070):
the element at iteration position `pos` overwrites the `pos`-th held block if
one exists, else allocates a new block and appends it.  The block list length
is re-read on every iteration, as in the source.  `we`/`ae` are the events
tagging a write and an allocation respectively. -/
def uniformBlocksLoop {α : Type} (we ae : FrameEvent) (pos : Nat)
    (buf : DynamicUniformBuffer α)
    (blocks : List DynamicUniformBufferBlock) :
    List α → LoopResult α
  | [] => ⟨buf, blocks, []⟩
  | v :: rest =>
    if blocks.length ≤ pos then
      LoopResult.consEvent ae (uniformBlocksLoop we ae (pos + 1)
        (buf.allocate v).1 (blocks ++ [(buf.allocate v).2]) rest)
    else
      LoopResult.consEvent we (uniformBlocksLoop we ae (pos + 1)
        (buf.write_block (blocks.getD pos ⟨0⟩) v) blocks rest)

/-- The glyph phase of `update_uniform_buffers` (mod.rs lines 1047-1071):
clears the held glyph block list (discarding `oldBlocks`), clears the glyph
uniform buffer to zero elements, runs the write-or-allocate loop over the
uniforms generated for the current frame's glyph draw commands, and flushes
the buffer. -/
def updateGlyphUniforms {γ : Type} (buf : DynamicUniformBuffer γ)
    (oldBlocks : List DynamicUniformBufferBlock) (unis : List γ) :
    LoopResult γ :=
  let r := uniformBlocksLoop FrameEvent.writeGlyphBlock
    FrameEvent.allocGlyphBlock 0 buf.clear [] unis
  ⟨r.buf.flush, r.blocks,
   FrameEvent.clearGlyphBuffer :: r.events ++ [FrameEvent.flushGlyphBuffer]⟩

/-- Draw-recording commands captured from the render pass (mod.rs lines
1132-1186): bind-group binds, the world draw, the per-kind entity draws, the
warning logged for an unsupported entity, and the glyph pass. -/
inductive RenderOp
  | setBindGroupPerFrame
  | setBindGroupPerEntity (offset : Nat)
  | drawWorld
  | drawBrush
  | drawAlias
  | drawSprite
  | warnUnsupported
  | drawGlyphs (count : Nat)
deriving DecidableEq

/-- The commands an entity's sub-renderer records (the match in
`Renderer::render_pass`, mod.rs lines 1159-1177): brush, alias and sprite
renderers record their draw; the wildcard arm only logs a warning. -/
def drawCmds : EntityRenderer → List RenderOp
  | EntityRenderer.Brush => [RenderOp.drawBrush]
  | EntityRenderer.Alias => [RenderOp.drawAlias]
  | EntityRenderer.Sprite _ => [RenderOp.drawSprite]
  | EntityRenderer.None => [RenderOp.warnUnsupported]

/-- Whether a recorded op draws geometry or text. -/
def RenderOp.isDraw : RenderOp → Bool
  | RenderOp.drawWorld => true
  | RenderOp.drawBrush => true
  | RenderOp.drawAlias => true
  | RenderOp.drawSprite => true
  | RenderOp.drawGlyphs _ => true
  | _ => false

/-- The commands recorded for one entity at iteration position `pos`
(mod.rs lines 1150-1178): bind the per-entity group at the entity's block
offset, then dispatch on the entity's sub-renderer; a failed sub-renderer
lookup panics (`none`). -/
def entityCommands {R : Type} (rs : List EntityRenderer)
    (blocks : List DynamicUniformBufferBlock) (pos : Nat)
    (e : ClientEntity R) : Option (List RenderOp) :=
  match renderer_for_entity rs e with
  | Option.none => Option.none
  | some er =>
    some (RenderOp.setBindGroupPerEntity (blocks.getD pos ⟨0⟩).offset
      :: drawCmds er)

/-- The entity draw loop of `render_pass` (mod.rs lines 1150-1178). -/
def recordEntityDraws {R : Type} (rs : List EntityRenderer)
    (blocks : List DynamicUniformBufferBlock) :
    Nat → List (ClientEntity R) → Option (List RenderOp)
  | _, [] => some []
  | pos, e :: rest =>
    match entityCommands rs blocks pos e with
    | Option.none => Option.none
    | some ops =>
      Option.map (fun l => ops ++ l) (recordEntityDraws rs blocks (pos + 1) rest)

/-- The full command sequence recorded by `render_pass` (mod.rs lines
1132-1186): bind the per-frame group, bind and draw the world, run the entity
loop, then draw all queued glyph commands. -/
def render_pass_draws {R : Type} (rs : List EntityRenderer)
    (blocks : List DynamicUniformBufferBlock) (worldOffset : Nat)
    (nglyphs : Nat) (ents : List (ClientEntity R)) : Option (List RenderOp) :=
  Option.map (fun l =>
      RenderOp.setBindGroupPerFrame
        :: RenderOp.setBindGroupPerEntity worldOffset
        :: RenderOp.drawWorld
        :: (l ++ [RenderOp.drawGlyphs nglyphs]))
    (recordEntityDraws rs blocks 0 ents)

/-- Is this event one of the dynamic-uniform-buffer flushes? -/
def isFlushEvent : FrameEvent → Bool
  | FrameEvent.flushEntityBuffer => true
  | FrameEvent.flushGlyphBuffer => true
  | _ => false

/-- Is this event the recording of a render-pass draw command? -/
def isRecordEvent : FrameEvent → Bool
  | FrameEvent.recordDrawCommand => true
  | _ => false

/-- The buffer events of `update_uniform_buffers` (mod.rs lines 984-1072), in
source order: the frame-uniform write, the world entity-block write, the
entity write-or-allocate loop, the entity-buffer flush, then the glyph phase
(clear, allocations, flush). -/
def update_uniforms_trace {α γ : Type} (entBuf : DynamicUniformBuffer α)
    (blocks : List DynamicUniformBufferBlock) (entUniforms : List α)
    (glyphBuf : DynamicUniformBuffer γ) (glyphUnis : List γ) :
    List FrameEvent :=
  FrameEvent.writeFrameUniforms
    :: FrameEvent.writeEntityBlock
    :: ((uniformBlocksLoop FrameEvent.writeEntityBlock
          FrameEvent.allocEntityBlock 0 entBuf blocks entUniforms).events
        ++ [FrameEvent.flushEntityBuffer]
        ++ (updateGlyphUniforms glyphBuf [] glyphUnis).events)

/-- The event trace of one `render_pass` call (mod.rs lines 1074-1195):
`update_uniform_buffers` runs first (its trace ends with the flushes), then
the render pass is begun, the draw commands are recorded, and the command
buffer is submitted.  The per-entity uniform values are the transforms
computed by `calculate_transform`, whose sub-renderer lookup can panic
(`none`), as can the draw loop's. -/
def render_pass_trace {R γ : Type} [CommRing R] (t : Trig R)
    (rs : List EntityRenderer) (cam : Camera R)
    (entBuf : DynamicUniformBuffer (Mat4 R))
    (blocks : List DynamicUniformBufferBlock)
    (glyphBuf : DynamicUniformBuffer γ) (glyphUnis : List γ)
    (worldOffset : Nat) (ents : List (ClientEntity R)) :
    Option (List FrameEvent) :=
  match ents.mapM (calculate_transform t rs cam) with
  | Option.none => Option.none
  | some transforms =>
    Option.map (fun ops =>
        update_uniforms_trace entBuf blocks transforms glyphBuf glyphUnis
          ++ FrameEvent.beginPass
          :: (ops.map (fun _ => FrameEvent.recordDrawCommand)
              ++ [FrameEvent.submit]))
      (render_pass_draws rs blocks worldOffset glyphUnis.length ents)

/-- The concrete frame trace used by the phase-ordering witness: an empty
entity list and no glyph uniforms. -/
def demoTrace : List FrameEvent :=
  [FrameEvent.writeFrameUniforms, FrameEvent.writeEntityBlock,
   FrameEvent.flushEntityBuffer, FrameEvent.clearGlyphBuffer,
   FrameEvent.flushGlyphBuffer, FrameEvent.beginPass,
   FrameEvent.recordDrawCommand, FrameEvent.recordDrawCommand,
   FrameEvent.recordDrawCommand, FrameEvent.recordDrawCommand,
   FrameEvent.submit]

@[simp]
theorem LoopResult.consEvent_buf {α : Type} (e : FrameEvent)
    (r : LoopResult α) : (LoopResult.consEvent e r).buf = r.buf := rfl

@[simp]
theorem LoopResult.consEvent_blocks {α : Type} (e : FrameEvent)
    (r : LoopResult α) : (LoopResult.consEvent e r).blocks = r.blocks := rfl

@[simp]
theorem LoopResult.consEvent_events {α : Type} (e : FrameEvent)
    (r : LoopResult α) : (LoopResult.consEvent e r).events = e :: r.events := rfl

theorem uniformBlocksLoop_cons {α : Type} (we ae : FrameEvent) (pos : Nat)
    (buf : DynamicUniformBuffer α) (blocks : List DynamicUniformBufferBlock)
    (v : α) (rest : List α) :
    uniformBlocksLoop we ae pos buf blocks (v :: rest)
      = if blocks.length ≤ pos then
          LoopResult.consEvent ae (uniformBlocksLoop we ae (pos + 1)
            (buf.allocate v).1 (blocks ++ [(buf.allocate v).2]) rest)
        else
          LoopResult.consEvent we (uniformBlocksLoop we ae (pos + 1)
            (buf.write_block (blocks.getD pos ⟨0⟩) v) blocks rest) := rfl

theorem matFromEuler_zero {R : Type} [CommRing R] (t : Trig R)
    (hs : t.sinDeg 0 = 0) (hc : t.cosDeg 0 = 1) :
    matFromEuler t ⟨0, 0, 0⟩ = 1 := by
  unfold matFromEuler
  simp only [hs, hc]
  ext i j
  fin_cases i <;> fin_cases j <;>
    simp [Matrix.one_apply, Matrix.vecHead, Matrix.vecTail]

theorem from_translation_zero {R : Type} [CommRing R] :
    from_translation (⟨0, 0, 0⟩ : V3 R) = 1 := by
  unfold from_translation
  ext i j
  fin_cases i <;> fin_cases j <;>
    simp [Matrix.one_apply, Matrix.vecHead, Matrix.vecTail]

/-- Claim C1: for every origin, Euler angles and projection matrix, the camera
transform built by `Camera.new` equals
`projection * rotation(a.x, -a.y, -a.z) * translate(-convert(origin))`, and a
camera with zero origin, zero angles and identity projection has the identity
transform. -/
theorem camera_transform_spec {R : Type} [CommRing R] (t : Trig R)
    (hs : t.sinDeg 0 = 0) (hc : t.cosDeg 0 = 1) :
    (∀ (o a : V3 R) (P : Mat4 R),
        (Camera.new t o a P).transform
          = P * matFromEuler t ⟨a.x, -a.y, -a.z⟩
              * from_translation (neg3 (convert o)))
    ∧ (Camera.new t (⟨0, 0, 0⟩ : V3 R) ⟨0, 0, 0⟩ (1 : Mat4 R)).transform = 1 := by
  constructor
  · intro o a P
    rfl
  · show (1 : Mat4 R) * matFromEuler t ⟨(0 : R), -0, -0⟩
        * from_translation (neg3 ⟨-(0 : R), 0, -0⟩) = 1
    have h1 : (⟨(0 : R), -0, -0⟩ : V3 R) = ⟨0, 0, 0⟩ := by
      rw [neg_zero]
    have h2 : neg3 (⟨-(0 : R), 0, -0⟩ : V3 R) = ⟨0, 0, 0⟩ := by
      unfold neg3
      simp
    rw [h1, h2, matFromEuler_zero t hs hc, from_translation_zero]
    simp

/-- Witness for C1 at the concrete trig table `qTrig` over `ℚ`. -/
theorem camera_transform_spec_witness :
    qTrig.sinDeg 0 = 0 ∧ qTrig.cosDeg 0 = 1 ∧
      (Camera.new qTrig (⟨0, 0, 0⟩ : V3 ℚ) ⟨0, 0, 0⟩ (1 : Mat4 ℚ)).transform = 1 :=
  ⟨rfl, rfl, (camera_transform_spec qTrig rfl rfl).2⟩

/-- Claim C2: every entity whose sub-renderer is not a sprite renderer gets
the uniform transform `camera.transform * translate(convert(origin)) *
rotation(angles)` with its own three angles unchanged. -/
theorem entity_transform_spec {R : Type} [CommRing R] (t : Trig R)
    (rs : List EntityRenderer) (cam : Camera R) (e : ClientEntity R)
    (er : EntityRenderer)
    (h : renderer_for_entity rs e = some er)
    (hns : ∀ k, er ≠ EntityRenderer.Sprite k) :
    calculate_transform t rs cam e
      = some (cam.transform * from_translation (convert e.origin)
          * matFromEuler t e.angles) := by
  unfold calculate_transform
  rw [h]
  cases er with
  | Sprite k => exact absurd rfl (hns k)
  | Alias => rfl
  | Brush => rfl
  | None => rfl

/-- Witness for C2: a brush entity at model id 1 in a one-renderer table. -/
theorem entity_transform_spec_witness :
    renderer_for_entity [EntityRenderer.Brush] demoEnt
        = some EntityRenderer.Brush
      ∧ calculate_transform qTrig [EntityRenderer.Brush] demoCam demoEnt
        = some (demoCam.transform * from_translation (convert demoEnt.origin)
            * matFromEuler qTrig demoEnt.angles) :=
  ⟨rfl, entity_transform_spec qTrig [EntityRenderer.Brush] demoCam demoEnt
    EntityRenderer.Brush rfl (fun _ h => by cases h)⟩

/-- Claim C3: a sprite entity keeps its own authored angles when the sprite
kind is oriented; any other sprite kind substitutes the negated camera pitch
and yaw while keeping the entity's own roll. -/
theorem sprite_transform_spec {R : Type} [CommRing R] (t : Trig R)
    (rs : List EntityRenderer) (cam : Camera R) (e : ClientEntity R)
    (k : SpriteKind)
    (h : renderer_for_entity rs e = some (EntityRenderer.Sprite k)) :
    calculate_transform t rs cam e
      = some (cam.transform * from_translation (convert e.origin)
          * matFromEuler t
              (if k = SpriteKind.Oriented then e.angles
               else ⟨-cam.angles.x, -cam.angles.y, e.angles.z⟩)) := by
  unfold calculate_transform
  rw [h]
  cases k <;> simp [convert, neg3]

/-- Witness for C3: an oriented and a view-plane-parallel sprite entity. -/
theorem sprite_transform_spec_witness :
    renderer_for_entity [EntityRenderer.Sprite SpriteKind.ViewPlaneParallel]
        demoEnt = some (EntityRenderer.Sprite SpriteKind.ViewPlaneParallel)
      ∧ calculate_transform qTrig
          [EntityRenderer.Sprite SpriteKind.ViewPlaneParallel] demoCam demoEnt
        = some (demoCam.transform * from_translation (convert demoEnt.origin)
            * matFromEuler qTrig
                ⟨-demoCam.angles.x, -demoCam.angles.y, demoEnt.angles.z⟩)
      ∧ calculate_transform qTrig
          [EntityRenderer.Sprite SpriteKind.Oriented] demoCam demoEnt
        = some (demoCam.transform * from_translation (convert demoEnt.origin)
            * matFromEuler qTrig demoEnt.angles) :=
  ⟨rfl,
   sprite_transform_spec qTrig _ demoCam demoEnt SpriteKind.ViewPlaneParallel rfl,
   sprite_transform_spec qTrig _ demoCam demoEnt SpriteKind.Oriented rfl⟩

theorem map_ite_range_congr {β : Type} (we ae : β) (n : Nat)
    (f g : Nat → Prop) [DecidablePred f] [DecidablePred g]
    (h : ∀ k, k < n → (f k ↔ g k)) :
    (List.range n).map (fun k => if f k then we else ae)
      = (List.range n).map (fun k => if g k then we else ae) := by
  apply List.map_congr_left
  intro k hk
  rw [List.mem_range] at hk
  by_cases hf : f k
  · rw [if_pos hf, if_pos ((h k hk).mp hf)]
  · rw [if_neg hf, if_neg (fun hg => hf ((h k hk).mpr hg))]

/-- Master lemma for the write-or-allocate loop, for any start position not
past the end of the held block list (the source always starts at 0): block
count grows to the larger of the old count and the iteration count, existing
blocks are kept in place, one element is staged per overflow position, fresh
blocks get consecutive aligned offsets, and position `k` writes exactly when
`pos + k` is below the old block count. -/
theorem uniformBlocksLoop_spec {α : Type} (we ae : FrameEvent) (vals : List α) :
    ∀ (pos : Nat) (buf : DynamicUniformBuffer α)
      (blocks : List DynamicUniformBufferBlock),
      pos ≤ blocks.length →
      (uniformBlocksLoop we ae pos buf blocks vals).blocks.length
          = max blocks.length (pos + vals.length)
        ∧ (∀ N, N < blocks.length →
            (uniformBlocksLoop we ae pos buf blocks vals).blocks[N]?
              = blocks[N]?)
        ∧ (uniformBlocksLoop we ae pos buf blocks vals).buf.staged.length
          = buf.staged.length + (pos + vals.length - blocks.length)
        ∧ (uniformBlocksLoop we ae pos buf blocks vals).buf.align = buf.align
        ∧ (uniformBlocksLoop we ae pos buf blocks vals).buf.size = buf.size
        ∧ (uniformBlocksLoop we ae pos buf blocks vals).buf.gpu = buf.gpu
        ∧ (∀ N, blocks.length ≤ N → N < pos + vals.length →
            (uniformBlocksLoop we ae pos buf blocks vals).blocks[N]?
              = some ⟨(buf.staged.length + (N - blocks.length)) * buf.stride⟩)
        ∧ (uniformBlocksLoop we ae pos buf blocks vals).events
          = (List.range vals.length).map
              (fun k => if pos + k < blocks.length then we else ae) := by
  induction vals with
  | nil =>
    intro pos buf blocks hpos
    refine ⟨?_, fun N _ => rfl, ?_, rfl, rfl, rfl, ?_, rfl⟩
    · show blocks.length = max blocks.length (pos + List.length ([] : List α))
      simp only [List.length_nil]
      omega
    · show buf.staged.length
        = buf.staged.length + (pos + List.length ([] : List α) - blocks.length)
      simp only [List.length_nil]
      omega
    · intro N h1 h2
      simp only [List.length_nil] at h2
      exact absurd h2 (by omega)
  | cons v rest ih =>
    intro pos buf blocks hpos
    rw [uniformBlocksLoop_cons]
    by_cases hc : blocks.length ≤ pos
    · have hpl : pos = blocks.length := le_antisymm hpos hc
      rw [if_pos hc]
      obtain ⟨ihlen, ihpre, ihst, ihal, ihsz, ihgpu, ihfresh, ihev⟩ :=
        ih (pos + 1) (buf.allocate v).1 (blocks ++ [(buf.allocate v).2])
          (by simp only [List.length_append, List.length_cons, List.length_nil]; omega)
      have hstg : (buf.allocate v).1.staged.length = buf.staged.length + 1 := by
        simp [DynamicUniformBuffer.allocate]
      have hstr : (buf.allocate v).1.stride = buf.stride := rfl
      simp only [LoopResult.consEvent_buf, LoopResult.consEvent_blocks,
        LoopResult.consEvent_events]
      refine ⟨?_, ?_, ?_, ihal, ihsz, ihgpu, ?_, ?_⟩
      · rw [ihlen]
        simp only [List.length_append, List.length_cons, List.length_nil]
        omega
      · intro N hN
        rw [ihpre N (by simp only [List.length_append, List.length_cons, List.length_nil]; omega)]
        exact List.getElem?_append_left (by omega)
      · rw [ihst, hstg]
        simp only [List.length_append, List.length_cons, List.length_nil]
        omega
      · intro N h1 h2
        simp only [List.length_cons] at h2
        by_cases hN : N < blocks.length + 1
        · have hNeq : N = blocks.length := by omega
          rw [ihpre N (by simp only [List.length_append, List.length_cons, List.length_nil]; omega)]
          subst hNeq
          rw [List.getElem?_concat_length]
          show some ((buf.allocate v).2) = _
          show some (⟨buf.staged.length * buf.stride⟩ : DynamicUniformBufferBlock)
            = some ⟨(buf.staged.length + (blocks.length - blocks.length)) * buf.stride⟩
          congr 3
          omega
        · rw [ihfresh N (by simp only [List.length_append, List.length_cons, List.length_nil]; omega)
            (by omega)]
          rw [hstg, hstr]
          congr 3
          simp only [List.length_append, List.length_cons, List.length_nil]
          omega
      · rw [ihev]
        rw [List.length_cons, List.range_succ_eq_map, List.map_cons, List.map_map]
        congr 1
        · rw [if_neg (by omega)]
        · apply map_ite_range_congr
          intro k hk
          simp only [Function.comp, List.length_append, List.length_cons, List.length_nil]
          omega
    · rw [if_neg hc]
      have hw : (buf.write_block (blocks.getD pos ⟨0⟩) v).staged.length
          = buf.staged.length := by
        simp [DynamicUniformBuffer.write_block]
      obtain ⟨ihlen, ihpre, ihst, ihal, ihsz, ihgpu, ihfresh, ihev⟩ :=
        ih (pos + 1) (buf.write_block (blocks.getD pos ⟨0⟩) v) blocks (by omega)
      simp only [LoopResult.consEvent_buf, LoopResult.consEvent_blocks,
        LoopResult.consEvent_events]
      refine ⟨?_, ?_, ?_, ihal, ihsz, ihgpu, ?_, ?_⟩
      · rw [ihlen]
        simp only [List.length_cons]
        omega
      · exact ihpre
      · rw [ihst, hw]
        simp only [List.length_cons]
        omega
      · intro N h1 h2
        simp only [List.length_cons] at h2
        rw [ihfresh N h1 (by omega)]
        rw [hw]
        rfl
      · rw [ihev]
        rw [List.length_cons, List.range_succ_eq_map, List.map_cons, List.map_map]
        congr 1
        · rw [if_pos (by omega)]
        · apply map_ite_range_congr
          intro k hk
          omega

/-- Claim C9: for alignment `A > 0` the stride is the smallest multiple of `A`
that is at least the struct size; with `A = 256` the sizes 4, 255, 256, 257
give strides 256, 256, 256, 512; and every block offset returned by
`allocate` is a multiple of the alignment. -/
theorem stride_spec (A S : Nat) (hA : 0 < A) :
    A ∣ uStride A S
      ∧ S ≤ uStride A S
      ∧ (∀ m, A ∣ m → S ≤ m → uStride A S ≤ m)
      ∧ uStride 256 4 = 256 ∧ uStride 256 255 = 256
      ∧ uStride 256 256 = 256 ∧ uStride 256 257 = 512
      ∧ (∀ (α : Type) (b : DynamicUniformBuffer α) (v : α), b.align = A →
          A ∣ (b.allocate v).2.offset) := by
  have hdvd : A ∣ uStride A S := Dvd.intro _ rfl
  refine ⟨hdvd, ?_, ?_, by decide, by decide, by decide, by decide, ?_⟩
  · unfold uStride
    rcases Nat.eq_zero_or_pos S with hS | hS
    · omega
    · have hmod := Nat.div_add_mod (S + A - 1) A
      have hlt : (S + A - 1) % A < A := Nat.mod_lt _ hA
      omega
  · intro m hm hSm
    obtain ⟨k, rfl⟩ := hm
    unfold uStride
    have hq : (S + A - 1) / A < k + 1 := by
      rw [Nat.div_lt_iff_lt_mul hA]
      have h1 : (k + 1) * A = A * k + A := by ring
      omega
    exact Nat.mul_le_mul_left A (by omega)
  · intro α b v hb
    show A ∣ b.staged.length * b.stride
    apply Dvd.dvd.mul_left
    show A ∣ uStride b.align b.size
    rw [hb]
    exact Dvd.intro _ rfl

/-- Witness for C9 at alignment 256 and size 257 with a concrete buffer. -/
theorem stride_spec_witness :
    uStride 256 257 = 512
      ∧ (256 : Nat) ∣ uStride 256 257
      ∧ (256 : Nat)
          ∣ ((⟨256, 257, [7], []⟩ : DynamicUniformBuffer Nat).allocate 9).2.offset :=
  ⟨(stride_spec 256 257 (by decide)).2.2.2.2.2.2.1,
   (stride_spec 256 257 (by decide)).1,
   (stride_spec 256 257 (by decide)).2.2.2.2.2.2.2 Nat ⟨256, 257, [7], []⟩ 9 rfl⟩

/-- Claim C4: in the entity phase of `update_uniform_buffers`, started at
position 0 as in the source, position `N` overwrites the `N`-th existing
block when `N` is below the held block count (a write event, block list
untouched at `N`) and otherwise allocates and appends exactly one new block;
the block list grows to `max old (number of entities)` and never shrinks. -/
theorem entity_blocks_spec {α : Type} (buf : DynamicUniformBuffer α)
    (blocks : List DynamicUniformBufferBlock) (vals : List α) :
    (uniformBlocksLoop FrameEvent.writeEntityBlock FrameEvent.allocEntityBlock
        0 buf blocks vals).blocks.length = max blocks.length vals.length
      ∧ (∀ N, N < blocks.length →
          (uniformBlocksLoop FrameEvent.writeEntityBlock
              FrameEvent.allocEntityBlock 0 buf blocks vals).blocks[N]?
            = blocks[N]?)
      ∧ (uniformBlocksLoop FrameEvent.writeEntityBlock
            FrameEvent.allocEntityBlock 0 buf blocks vals).buf.staged.length
        = buf.staged.length + (vals.length - blocks.length)
      ∧ blocks.length
        ≤ (uniformBlocksLoop FrameEvent.writeEntityBlock
            FrameEvent.allocEntityBlock 0 buf blocks vals).blocks.length
      ∧ (∀ N, blocks.length ≤ N → N < vals.length →
          (uniformBlocksLoop FrameEvent.writeEntityBlock
              FrameEvent.allocEntityBlock 0 buf blocks vals).blocks[N]?
            = some ⟨(buf.staged.length + (N - blocks.length)) * buf.stride⟩)
      ∧ (uniformBlocksLoop FrameEvent.writeEntityBlock
            FrameEvent.allocEntityBlock 0 buf blocks vals).events
        = (List.range vals.length).map
            (fun N => if N < blocks.length then FrameEvent.writeEntityBlock
                      else FrameEvent.allocEntityBlock) := by
  obtain ⟨hlen, hpre, hst, _, _, _, hfresh, hev⟩ :=
    uniformBlocksLoop_spec FrameEvent.writeEntityBlock
      FrameEvent.allocEntityBlock vals 0 buf blocks (Nat.zero_le _)
  refine ⟨by simpa using hlen, hpre, by simpa using hst, ?_, ?_, ?_⟩
  · rw [hlen]
    omega
  · intro N h1 h2
    exact hfresh N h1 (by omega)
  · rw [hev]
    apply map_ite_range_congr
    intro k _
    omega

/-- Witness for C4: one held block, two entities — position 0 reuses the held
block, position 1 appends a fresh one; one element is staged. -/
theorem entity_blocks_spec_witness :
    (uniformBlocksLoop FrameEvent.writeEntityBlock FrameEvent.allocEntityBlock
        0 (⟨256, 64, [5], []⟩ : DynamicUniformBuffer Nat) [⟨0⟩]
        [11, 12]).blocks.length = 2
      ∧ (uniformBlocksLoop FrameEvent.writeEntityBlock
            FrameEvent.allocEntityBlock 0
            (⟨256, 64, [5], []⟩ : DynamicUniformBuffer Nat) [⟨0⟩]
            [11, 12]).blocks[0]? = some ⟨0⟩
      ∧ (uniformBlocksLoop FrameEvent.writeEntityBlock
            FrameEvent.allocEntityBlock 0
            (⟨256, 64, [5], []⟩ : DynamicUniformBuffer Nat) [⟨0⟩]
            [11, 12]).blocks[1]? = some ⟨256⟩
      ∧ (uniformBlocksLoop FrameEvent.writeEntityBlock
            FrameEvent.allocEntityBlock 0
            (⟨256, 64, [5], []⟩ : DynamicUniformBuffer Nat) [⟨0⟩]
            [11, 12]).events
        = [FrameEvent.writeEntityBlock, FrameEvent.allocEntityBlock] := by
  obtain ⟨h1, h2, _, _, h5, h6⟩ :=
    entity_blocks_spec (⟨256, 64, [5], []⟩ : DynamicUniformBuffer Nat)
      [⟨0⟩] [11, 12]
  refine ⟨by simpa using h1, ?_, ?_, by rw [h6]; decide⟩
  · rw [h2 0 (by decide)]
    decide
  · rw [h5 1 (by decide) (by decide)]
    decide

/-- When the start position equals the held block count, every iteration of
the write-or-allocate loop allocates: the staged list is extended by exactly
the iterated values, the block list by consecutive fresh blocks, and every
emitted event is an allocation. -/
theorem uniformBlocksLoop_alloc_all {α : Type} (we ae : FrameEvent)
    (vals : List α) :
    ∀ (pos : Nat) (buf : DynamicUniformBuffer α)
      (blocks : List DynamicUniformBufferBlock),
      pos = blocks.length →
      (uniformBlocksLoop we ae pos buf blocks vals).buf.staged
          = buf.staged ++ vals
        ∧ (uniformBlocksLoop we ae pos buf blocks vals).blocks
          = blocks ++ (List.range vals.length).map
              (fun k => ⟨(buf.staged.length + k) * buf.stride⟩)
        ∧ (uniformBlocksLoop we ae pos buf blocks vals).events
          = List.replicate vals.length ae
        ∧ (uniformBlocksLoop we ae pos buf blocks vals).buf.gpu = buf.gpu
        ∧ (uniformBlocksLoop we ae pos buf blocks vals).buf.align = buf.align
        ∧ (uniformBlocksLoop we ae pos buf blocks vals).buf.size = buf.size := by
  induction vals with
  | nil =>
    intro pos buf blocks _
    exact ⟨by simp [uniformBlocksLoop], by simp [uniformBlocksLoop], rfl,
      rfl, rfl, rfl⟩
  | cons v rest ih =>
    intro pos buf blocks hpos
    rw [uniformBlocksLoop_cons, if_pos (le_of_eq hpos.symm)]
    obtain ⟨ihst, ihbl, ihev, ihgpu, ihal, ihsz⟩ :=
      ih (pos + 1) (buf.allocate v).1 (blocks ++ [(buf.allocate v).2])
        (by simp only [List.length_append, List.length_cons, List.length_nil]
            omega)
    have hstg : (buf.allocate v).1.staged = buf.staged ++ [v] := rfl
    have hstr : (buf.allocate v).1.stride = buf.stride := rfl
    simp only [LoopResult.consEvent_buf, LoopResult.consEvent_blocks,
      LoopResult.consEvent_events]
    refine ⟨?_, ?_, ?_, ihgpu, ihal, ihsz⟩
    · rw [ihst, hstg, List.append_assoc]
      rfl
    · rw [ihbl, List.append_assoc]
      congr 1
      rw [List.length_cons, List.range_succ_eq_map, List.map_cons, List.map_map,
        List.singleton_append]
      congr 1
      apply List.map_congr_left
      intro k _
      show (⟨((buf.allocate v).1.staged.length + k) * (buf.allocate v).1.stride⟩
          : DynamicUniformBufferBlock) = _
      rw [hstr]
      have hlen : (buf.allocate v).1.staged.length = buf.staged.length + 1 := by
        rw [hstg]
        simp
      rw [hlen]
      show (⟨(buf.staged.length + 1 + k) * buf.stride⟩
          : DynamicUniformBufferBlock)
        = ⟨(buf.staged.length + (k + 1)) * buf.stride⟩
      congr 2
      omega
    · rw [ihev, List.length_cons, List.replicate_succ]

/-- Claim C5: the glyph phase regenerates the glyph uniform set from scratch
each call: the result is independent of the previously held glyph blocks, the
glyph buffer is cleared and then holds exactly one freshly allocated block
per generated uniform (offsets starting from 0), every event is an
allocation, and the flushed GPU contents are exactly the current uniforms. -/
theorem glyph_regen_spec {γ : Type} (buf : DynamicUniformBuffer γ)
    (oldBlocks : List DynamicUniformBufferBlock) (unis : List γ) :
    updateGlyphUniforms buf oldBlocks unis = updateGlyphUniforms buf [] unis
      ∧ (updateGlyphUniforms buf oldBlocks unis).blocks
        = (List.range unis.length).map (fun k => ⟨k * buf.stride⟩)
      ∧ (updateGlyphUniforms buf oldBlocks unis).blocks.length = unis.length
      ∧ (updateGlyphUniforms buf oldBlocks unis).buf.staged = unis
      ∧ (updateGlyphUniforms buf oldBlocks unis).buf.gpu = unis
      ∧ (updateGlyphUniforms buf oldBlocks unis).events
        = FrameEvent.clearGlyphBuffer
            :: (List.replicate unis.length FrameEvent.allocGlyphBlock
                ++ [FrameEvent.flushGlyphBuffer]) := by
  obtain ⟨hst, hbl, hev, hgpu, hal, hsz⟩ :=
    uniformBlocksLoop_alloc_all FrameEvent.writeGlyphBlock
      FrameEvent.allocGlyphBlock unis 0 buf.clear [] rfl
  have hclst : (DynamicUniformBuffer.clear buf).staged = ([] : List γ) := rfl
  have hclstr : (DynamicUniformBuffer.clear buf).stride = buf.stride := rfl
  refine ⟨rfl, ?_, ?_, ?_, ?_, ?_⟩
  · show (uniformBlocksLoop FrameEvent.writeGlyphBlock
        FrameEvent.allocGlyphBlock 0 buf.clear [] unis).blocks = _
    rw [hbl, List.nil_append]
    apply List.map_congr_left
    intro k _
    rw [hclstr, hclst]
    show (⟨(List.length [] + k) * buf.stride⟩ : DynamicUniformBufferBlock) = _
    congr 2
    simp
  · show (uniformBlocksLoop FrameEvent.writeGlyphBlock
        FrameEvent.allocGlyphBlock 0 buf.clear [] unis).blocks.length = _
    rw [hbl]
    simp
  · show (uniformBlocksLoop FrameEvent.writeGlyphBlock
        FrameEvent.allocGlyphBlock 0 buf.clear [] unis).buf.flush.staged = _
    show (uniformBlocksLoop FrameEvent.writeGlyphBlock
        FrameEvent.allocGlyphBlock 0 buf.clear [] unis).buf.staged = _
    rw [hst, hclst, List.nil_append]
  · show (uniformBlocksLoop FrameEvent.writeGlyphBlock
        FrameEvent.allocGlyphBlock 0 buf.clear [] unis).buf.flush.gpu = _
    show (uniformBlocksLoop FrameEvent.writeGlyphBlock
        FrameEvent.allocGlyphBlock 0 buf.clear [] unis).buf.staged = _
    rw [hst, hclst, List.nil_append]
  · show FrameEvent.clearGlyphBuffer
        :: ((uniformBlocksLoop FrameEvent.writeGlyphBlock
              FrameEvent.allocGlyphBlock 0 buf.clear [] unis).events
            ++ [FrameEvent.flushGlyphBuffer]) = _
    rw [hev]

/-- Enumerated models whose indices all lie beyond the world index are all
classified and kept, in order. -/
theorem entityRenderersLoop_beyond (world : Nat) :
    ∀ (ms : List ModelKind) (n : Nat), world < n →
      entityRenderersLoop world (List.enumFrom n ms) = some (ms.map classify) := by
  intro ms
  induction ms with
  | nil =>
    intro n _
    rfl
  | cons m rest ih =>
    intro n hn
    rw [List.enumFrom_cons]
    simp only [entityRenderersLoop]
    rw [if_neg (by omega), ih (n + 1) (by omega)]
    rfl

/-- Characterization of the model loop when the world index falls inside the
enumerated span (`n + k = world`, `k` within the list): a successful run
yields the classified models with the world entry removed. -/
theorem entityRenderersLoop_through (world : Nat) :
    ∀ (ms : List ModelKind) (k n : Nat), n + k = world → k < ms.length →
      ∀ rs, entityRenderersLoop world (List.enumFrom n ms) = some rs →
        rs = (ms.take k).map classify ++ (ms.drop (k + 1)).map classify := by
  intro ms
  induction ms with
  | nil =>
    intro k n _ hk rs _
    simp at hk
  | cons m rest ih =>
    intro k n hw hk rs hrs
    rw [List.enumFrom_cons] at hrs
    simp only [entityRenderersLoop] at hrs
    cases k with
    | zero =>
      rw [if_pos (by omega)] at hrs
      cases m with
      | Brush =>
        rw [entityRenderersLoop_beyond world rest (n + 1) (by omega)] at hrs
        injection hrs with h
        rw [← h]
        rfl
      | Alias => exact Option.noConfusion hrs
      | Sprite k => exact Option.noConfusion hrs
      | NoModel => exact Option.noConfusion hrs
    | succ k' =>
      rw [if_neg (by omega)] at hrs
      cases hloop : entityRenderersLoop world (List.enumFrom (n + 1) rest) with
      | none =>
        rw [hloop] at hrs
        exact Option.noConfusion hrs
      | some rs' =>
        rw [hloop] at hrs
        injection hrs with h
        have hrec := ih k' (n + 1) (by omega)
          (by simp only [List.length_cons] at hk; omega) rs' hloop
        rw [← h, hrec]
        rw [List.take_succ_cons, List.drop_succ_cons, List.map_cons]
        rfl

/-- A successfully constructed renderer table is the classified model list
with the world model removed: the models before the world index, then those
after it. -/
theorem rendererNew_characterization (models : List ModelKind) (world : Nat)
    (rs : List EntityRenderer) (h : rendererNew models world = some rs) :
    world < models.length
      ∧ rs = (models.take world).map classify
          ++ (models.drop (world + 1)).map classify := by
  unfold rendererNew at h
  by_cases hw : world < models.length
  · rw [if_pos hw] at h
    rw [List.enum_eq_enumFrom] at h
    exact ⟨hw, entityRenderersLoop_through world models world 0 (by omega) hw rs h⟩
  · rw [if_neg hw] at h
    exact Option.noConfusion h

/-- Claim C10: dispatch indexes the constructed renderer list at
`model id - 1`: an id greater than the world index resolves to the renderer
classified from the entity's own model; id 0 underflows the `usize`
subtraction (an out-of-bounds access, modelled `none`); and a positive id
below the world index resolves to the renderer classified from the preceding
model.  `renderer_for_entity` is exactly this lookup on the entity's id. -/
theorem dispatch_indexing_spec (models : List ModelKind) (world : Nat)
    (rs : List EntityRenderer) (h : rendererNew models world = some rs) :
    (∀ m, world < m → m < models.length →
        renderer_for_model_id rs m = Option.map classify models[m]?)
      ∧ renderer_for_model_id rs 0 = Option.none
      ∧ (∀ m, 0 < m → m < world →
          renderer_for_model_id rs m = Option.map classify models[m - 1]?)
      ∧ (∀ (R : Type) (e : ClientEntity R),
          renderer_for_entity rs e = renderer_for_model_id rs e.model_id) := by
  obtain ⟨hw, hrs⟩ := rendererNew_characterization models world rs h
  have hA : ((models.take world).map classify).length = world := by
    simp only [List.length_map, List.length_take]
    omega
  refine ⟨?_, ?_, ?_, fun R e => rfl⟩
  · intro m h1 h2
    unfold renderer_for_model_id
    rw [if_neg (by omega), hrs]
    rw [List.getElem?_append_right (by rw [hA]; omega)]
    rw [hA, List.getElem?_map, List.getElem?_drop]
    have hidx : world + 1 + (m - 1 - world) = m := by omega
    rw [hidx]
  · unfold renderer_for_model_id
    rw [if_pos rfl]
  · intro m h1 h2
    unfold renderer_for_model_id
    rw [if_neg (by omega), hrs]
    rw [List.getElem?_append_left (by rw [hA]; omega)]
    rw [List.getElem?_map, List.getElem?_take_of_lt (by omega)]

/-- Witness for C10 with four models and world index 2: id 3 resolves to its
own model's renderer, id 0 underflows, id 1 resolves to model 0's renderer. -/
theorem dispatch_indexing_spec_witness :
    rendererNew [ModelKind.Alias, ModelKind.Brush, ModelKind.Brush,
        ModelKind.Sprite SpriteKind.Oriented] 2
      = some [EntityRenderer.Alias, EntityRenderer.Brush,
          EntityRenderer.Sprite SpriteKind.Oriented]
      ∧ renderer_for_model_id [EntityRenderer.Alias, EntityRenderer.Brush,
          EntityRenderer.Sprite SpriteKind.Oriented] 3
        = some (EntityRenderer.Sprite SpriteKind.Oriented)
      ∧ renderer_for_model_id [EntityRenderer.Alias, EntityRenderer.Brush,
          EntityRenderer.Sprite SpriteKind.Oriented] 0 = Option.none
      ∧ renderer_for_model_id [EntityRenderer.Alias, EntityRenderer.Brush,
          EntityRenderer.Sprite SpriteKind.Oriented] 1
        = some EntityRenderer.Alias := by
  have h := dispatch_indexing_spec [ModelKind.Alias, ModelKind.Brush,
    ModelKind.Brush, ModelKind.Sprite SpriteKind.Oriented] 2
    [EntityRenderer.Alias, EntityRenderer.Brush,
     EntityRenderer.Sprite SpriteKind.Oriented] rfl
  refine ⟨rfl, ?_, h.2.1, ?_⟩
  · rw [h.1 3 (by decide) (by decide)]
    rfl
  · rw [h.2.2.1 1 (by decide) (by decide)]
    rfl

/-- Claim C6: with loaded models [keyframe, static-geometry, sprite] at
indices 0, 1, 2 and world model index 1, construction classifies each
non-world model exactly once, in order; an entity referencing model index 2
resolves by direct index lookup to the sprite sub-renderer (and no other),
whose recorded draw path is the sprite draw command. -/
theorem sprite_dispatch_example :
    ∀ k : SpriteKind,
      rendererNew [ModelKind.Alias, ModelKind.Brush, ModelKind.Sprite k] 1
          = some [EntityRenderer.Alias, EntityRenderer.Sprite k]
        ∧ renderer_for_model_id
            [EntityRenderer.Alias, EntityRenderer.Sprite k] 2
          = some (EntityRenderer.Sprite k)
        ∧ drawCmds (EntityRenderer.Sprite k) = [RenderOp.drawSprite] :=
  fun k => ⟨rfl, rfl, rfl⟩

theorem recordEntityDraws_cons {R : Type} (rs : List EntityRenderer)
    (blocks : List DynamicUniformBufferBlock) (pos : Nat) (e : ClientEntity R)
    (rest : List (ClientEntity R)) :
    recordEntityDraws rs blocks pos (e :: rest)
      = match entityCommands rs blocks pos e with
        | Option.none => Option.none
        | some ops =>
          Option.map (fun l => ops ++ l)
            (recordEntityDraws rs blocks (pos + 1) rest) := rfl

theorem entityCommands_eq {R : Type} (rs : List EntityRenderer)
    (blocks : List DynamicUniformBufferBlock) (pos : Nat) (e : ClientEntity R)
    (er : EntityRenderer) (h : renderer_for_entity rs e = some er) :
    entityCommands rs blocks pos e
      = some (RenderOp.setBindGroupPerEntity (blocks.getD pos ⟨0⟩).offset
          :: drawCmds er) := by
  unfold entityCommands
  rw [h]

/-- The entity draw loop splits over list concatenation. -/
theorem recordEntityDraws_append {R : Type} (rs : List EntityRenderer)
    (blocks : List DynamicUniformBufferBlock) (xs : List (ClientEntity R)) :
    ∀ (pos : Nat) (ys : List (ClientEntity R)),
      recordEntityDraws rs blocks pos (xs ++ ys)
        = Option.bind (recordEntityDraws rs blocks pos xs)
            (fun l1 => Option.map (fun l2 => l1 ++ l2)
              (recordEntityDraws rs blocks (pos + xs.length) ys)) := by
  induction xs with
  | nil =>
    intro pos ys
    simp only [List.nil_append, List.length_nil, Nat.add_zero,
      recordEntityDraws, Option.some_bind]
    cases hys : recordEntityDraws rs blocks pos ys with
    | none => rfl
    | some l => simp
  | cons e rest ih =>
    intro pos ys
    show recordEntityDraws rs blocks pos (e :: (rest ++ ys)) = _
    rw [recordEntityDraws_cons, recordEntityDraws_cons]
    cases hc : entityCommands rs blocks pos e with
    | none => rfl
    | some ops =>
      show Option.map (fun l => ops ++ l)
          (recordEntityDraws rs blocks (pos + 1) (rest ++ ys)) = _
      rw [ih (pos + 1) ys]
      have hlen : pos + 1 + rest.length = pos + (e :: rest).length := by
        simp only [List.length_cons]
        omega
      rw [hlen]
      cases h1 : recordEntityDraws rs blocks (pos + 1) rest with
      | none => rfl
      | some l1 =>
        cases h2 : recordEntityDraws rs blocks (pos + (e :: rest).length) ys with
        | none => rfl
        | some l2 =>
          show some (ops ++ (l1 ++ l2)) = some ((ops ++ l1) ++ l2)
          rw [List.append_assoc]

/-- When every entity's sub-renderer lookup succeeds, the entity draw loop
completes. -/
theorem recordEntityDraws_isSome {R : Type} (rs : List EntityRenderer)
    (blocks : List DynamicUniformBufferBlock) :
    ∀ (ents : List (ClientEntity R)) (pos : Nat),
      (∀ x ∈ ents, (renderer_for_entity rs x).isSome = true) →
      ∃ l, recordEntityDraws rs blocks pos ents = some l := by
  intro ents
  induction ents with
  | nil =>
    intro pos _
    exact ⟨[], rfl⟩
  | cons e rest ih =>
    intro pos hall
    have he := hall e (List.mem_cons_self e rest)
    cases her : renderer_for_entity rs e with
    | none =>
      rw [her] at he
      simp at he
    | some er =>
      obtain ⟨l, hl⟩ := ih (pos + 1) (fun x hx => hall x (List.mem_cons_of_mem e hx))
      refine ⟨(RenderOp.setBindGroupPerEntity (blocks.getD pos ⟨0⟩).offset
        :: drawCmds er) ++ l, ?_⟩
      rw [recordEntityDraws_cons, entityCommands_eq rs blocks pos e er her, hl]
      rfl

/-- Claim C7: an entity classified as unsupported is handled gracefully by
the draw-recording loop: the frame's command list still completes (no fatal
termination), the entity's own segment is just the bind-group bind and a
warning (no draw command), the warning appears in the recorded list, and the
glyph pass still runs last. -/
theorem unsupported_skip_spec {R : Type} (rs : List EntityRenderer)
    (blocks : List DynamicUniformBufferBlock) (worldOffset nglyphs : Nat)
    (pre post : List (ClientEntity R)) (e : ClientEntity R)
    (hall : ∀ x ∈ pre ++ e :: post, (renderer_for_entity rs x).isSome = true)
    (he : renderer_for_entity rs e = some EntityRenderer.None) :
    ∃ l, render_pass_draws rs blocks worldOffset nglyphs (pre ++ e :: post)
          = some l
      ∧ RenderOp.warnUnsupported ∈ l
      ∧ entityCommands rs blocks pre.length e
        = some [RenderOp.setBindGroupPerEntity (blocks.getD pre.length ⟨0⟩).offset,
                RenderOp.warnUnsupported]
      ∧ (∀ ops, entityCommands rs blocks pre.length e = some ops →
          ∀ op ∈ ops, op.isDraw = false)
      ∧ l.getLast? = some (RenderOp.drawGlyphs nglyphs) := by
  have hec : entityCommands rs blocks pre.length e
      = some [RenderOp.setBindGroupPerEntity (blocks.getD pre.length ⟨0⟩).offset,
              RenderOp.warnUnsupported] :=
    entityCommands_eq rs blocks pre.length e EntityRenderer.None he
  obtain ⟨l1, h1⟩ := recordEntityDraws_isSome rs blocks pre 0
    (fun x hx => hall x (List.mem_append_left _ hx))
  obtain ⟨l2, h2⟩ := recordEntityDraws_isSome rs blocks post (pre.length + 1)
    (fun x hx => hall x (List.mem_append_right _ (List.mem_cons_of_mem e hx)))
  have hmid : recordEntityDraws rs blocks pre.length (e :: post)
      = some ([RenderOp.setBindGroupPerEntity (blocks.getD pre.length ⟨0⟩).offset,
               RenderOp.warnUnsupported] ++ l2) := by
    rw [recordEntityDraws_cons, hec, h2]
    rfl
  have hsplit := recordEntityDraws_append rs blocks pre 0 (e :: post)
  rw [h1, Nat.zero_add, hmid, Option.some_bind] at hsplit
  refine ⟨RenderOp.setBindGroupPerFrame
      :: RenderOp.setBindGroupPerEntity worldOffset
      :: RenderOp.drawWorld
      :: ((l1 ++ ([RenderOp.setBindGroupPerEntity (blocks.getD pre.length ⟨0⟩).offset,
              RenderOp.warnUnsupported] ++ l2)) ++ [RenderOp.drawGlyphs nglyphs]),
    ?_, ?_, hec, ?_, ?_⟩
  · unfold render_pass_draws
    rw [hsplit]
    rfl
  · apply List.mem_cons_of_mem
    apply List.mem_cons_of_mem
    apply List.mem_cons_of_mem
    apply List.mem_append_left
    apply List.mem_append_right
    apply List.mem_append_left
    simp
  · intro ops hops
    rw [hec] at hops
    injection hops with hops
    subst hops
    intro op hop
    simp only [List.mem_cons, List.not_mem_nil, or_false] at hop
    rcases hop with rfl | rfl
    · rfl
    · rfl
  · show ((RenderOp.setBindGroupPerFrame
        :: RenderOp.setBindGroupPerEntity worldOffset
        :: RenderOp.drawWorld
        :: (l1 ++ ([RenderOp.setBindGroupPerEntity (blocks.getD pre.length ⟨0⟩).offset,
              RenderOp.warnUnsupported] ++ l2)))
        ++ [RenderOp.drawGlyphs nglyphs]).getLast? = _
    rw [List.getLast?_concat]

/-- Witness for C7: a single unsupported entity. -/
theorem unsupported_skip_spec_witness :
    renderer_for_entity [EntityRenderer.None] demoEnt
        = some EntityRenderer.None
      ∧ ∃ l, render_pass_draws [EntityRenderer.None]
            [(⟨0⟩ : DynamicUniformBufferBlock)] 0 1 ([] ++ demoEnt :: [])
            = some l
          ∧ RenderOp.warnUnsupported ∈ l
          ∧ l.getLast? = some (RenderOp.drawGlyphs 1) := by
  refine ⟨rfl, ?_⟩
  obtain ⟨l, hl1, hl2, _, _, hl5⟩ :=
    unsupported_skip_spec [EntityRenderer.None] [⟨0⟩] 0 1 [] []
      demoEnt
      (by
        intro x hx
        rw [List.nil_append, List.mem_singleton] at hx
        subst hx
        rfl)
      rfl
  exact ⟨l, hl1, hl2, hl5⟩

/-- Every event the write-or-allocate loop emits is one of its two tags. -/
theorem uniformBlocksLoop_events_mem {α : Type} (we ae : FrameEvent)
    (vals : List α) :
    ∀ (pos : Nat) (buf : DynamicUniformBuffer α)
      (blocks : List DynamicUniformBufferBlock),
      ∀ ev ∈ (uniformBlocksLoop we ae pos buf blocks vals).events,
        ev = we ∨ ev = ae := by
  induction vals with
  | nil =>
    intro pos buf blocks ev hev
    simp only [uniformBlocksLoop, List.not_mem_nil] at hev
  | cons v rest ih =>
    intro pos buf blocks ev hev
    rw [uniformBlocksLoop_cons] at hev
    by_cases hc : blocks.length ≤ pos
    · rw [if_pos hc] at hev
      simp only [LoopResult.consEvent_events, List.mem_cons] at hev
      rcases hev with rfl | hev
      · exact Or.inr rfl
      · exact ih _ _ _ ev hev
    · rw [if_neg hc] at hev
      simp only [LoopResult.consEvent_events, List.mem_cons] at hev
      rcases hev with rfl | hev
      · exact Or.inl rfl
      · exact ih _ _ _ ev hev

/-- No event of the uniform-update phase records a draw command. -/
theorem update_uniforms_trace_no_record {α γ : Type}
    (entBuf : DynamicUniformBuffer α)
    (blocks : List DynamicUniformBufferBlock) (entUniforms : List α)
    (glyphBuf : DynamicUniformBuffer γ) (glyphUnis : List γ) :
    ∀ ev ∈ update_uniforms_trace entBuf blocks entUniforms glyphBuf glyphUnis,
      isRecordEvent ev = false := by
  intro ev hev
  unfold update_uniforms_trace at hev
  simp only [List.mem_cons, List.mem_append, List.mem_singleton,
    List.not_mem_nil, or_false] at hev
  rcases hev with rfl | hev
  · rfl
  rcases hev with rfl | hev
  · rfl
  rcases hev with (hloop | rfl) | hglyph
  · rcases uniformBlocksLoop_events_mem FrameEvent.writeEntityBlock
      FrameEvent.allocEntityBlock entUniforms 0 entBuf blocks ev hloop with
      rfl | rfl
    · rfl
    · rfl
  · rfl
  · show isRecordEvent ev = false
    have : (updateGlyphUniforms glyphBuf [] glyphUnis).events
        = FrameEvent.clearGlyphBuffer
          :: ((uniformBlocksLoop FrameEvent.writeGlyphBlock
              FrameEvent.allocGlyphBlock 0 glyphBuf.clear [] glyphUnis).events
            ++ [FrameEvent.flushGlyphBuffer]) := rfl
    rw [this] at hglyph
    simp only [List.mem_cons, List.mem_append, List.mem_singleton,
      List.not_mem_nil, or_false] at hglyph
    rcases hglyph with rfl | hglyph
    · rfl
    rcases hglyph with hloop | rfl
    · rcases uniformBlocksLoop_events_mem FrameEvent.writeGlyphBlock
        FrameEvent.allocGlyphBlock glyphUnis 0 glyphBuf.clear [] ev hloop with
        rfl | rfl
      · rfl
      · rfl
    · rfl

/-- No event of the draw-recording phase is a buffer flush. -/
theorem record_tail_no_flush (ops : List RenderOp) :
    ∀ ev ∈ FrameEvent.beginPass
        :: (ops.map (fun _ => FrameEvent.recordDrawCommand)
            ++ [FrameEvent.submit]),
      isFlushEvent ev = false := by
  intro ev hev
  simp only [List.mem_cons, List.mem_append, List.mem_map,
    List.mem_singleton, List.not_mem_nil, or_false] at hev
  rcases hev with rfl | hev
  · rfl
  rcases hev with ⟨x, _, rfl⟩ | rfl
  · rfl
  · rfl

/-- If the first part of a split trace has no record events and the second no
flush events, every flush index precedes every record index. -/
theorem split_ordering (l1 l2 : List FrameEvent)
    (h1 : ∀ ev ∈ l1, isRecordEvent ev = false)
    (h2 : ∀ ev ∈ l2, isFlushEvent ev = false)
    (i j : Nat) (hi : i < (l1 ++ l2).length) (hj : j < (l1 ++ l2).length)
    (hf : isFlushEvent ((l1 ++ l2).get ⟨i, hi⟩) = true)
    (hr : isRecordEvent ((l1 ++ l2).get ⟨j, hj⟩) = true) :
    i < j := by
  rw [List.get_eq_getElem] at hf hr
  by_cases hil : i < l1.length
  · by_cases hjl : j < l1.length
    · exfalso
      rw [List.getElem_append_left hjl] at hr
      have := h1 _ (List.getElem_mem hjl)
      rw [this] at hr
      exact Bool.false_ne_true hr
    · omega
  · exfalso
    have hil' : l1.length ≤ i := by omega
    rw [List.getElem_append_right hil'] at hf
    have hi2 : i - l1.length < l2.length := by
      simp only [List.length_append] at hi
      omega
    have := h2 _ (List.getElem_mem hi2)
    rw [this] at hf
    exact Bool.false_ne_true hf

/-- Claim C8: within a `render_pass` call the uniform-update phase, including
both buffer flushes, completes strictly before any draw command is recorded:
in the frame's event trace every flush event precedes every draw-recording
event. -/
theorem phases_ordered_spec {R γ : Type} [CommRing R] (t : Trig R)
    (rs : List EntityRenderer) (cam : Camera R)
    (entBuf : DynamicUniformBuffer (Mat4 R))
    (blocks : List DynamicUniformBufferBlock)
    (glyphBuf : DynamicUniformBuffer γ) (glyphUnis : List γ)
    (worldOffset : Nat) (ents : List (ClientEntity R))
    (tr : List FrameEvent)
    (h : render_pass_trace t rs cam entBuf blocks glyphBuf glyphUnis
        worldOffset ents = some tr)
    (i j : Nat) (hi : i < tr.length) (hj : j < tr.length)
    (hf : isFlushEvent (tr.get ⟨i, hi⟩) = true)
    (hr : isRecordEvent (tr.get ⟨j, hj⟩) = true) :
    i < j := by
  unfold render_pass_trace at h
  cases hm : ents.mapM (calculate_transform t rs cam) with
  | none =>
    rw [hm] at h
    exact Option.noConfusion h
  | some transforms =>
    rw [hm] at h
    cases hd : render_pass_draws rs blocks worldOffset glyphUnis.length ents with
    | none =>
      rw [hd] at h
      exact Option.noConfusion h
    | some ops =>
      rw [hd] at h
      injection h with h
      subst h
      exact split_ordering _ _
        (update_uniforms_trace_no_record entBuf blocks transforms glyphBuf
          glyphUnis)
        (record_tail_no_flush ops) i j hi hj hf hr

/-- Witness for C8: an empty entity list and empty glyph set; the glyph flush
at index 4 precedes the first recorded draw command at index 6. -/
theorem phases_ordered_spec_witness :
    render_pass_trace qTrig [EntityRenderer.Brush] demoCam
        (⟨256, 64, [], []⟩ : DynamicUniformBuffer (Mat4 ℚ)) []
        (⟨256, 16, [], []⟩ : DynamicUniformBuffer Nat) ([] : List Nat) 0
        ([] : List (ClientEntity ℚ)) = some demoTrace
      ∧ isFlushEvent (demoTrace.get ⟨4, by decide⟩) = true
      ∧ isRecordEvent (demoTrace.get ⟨6, by decide⟩) = true
      ∧ 4 < 6 :=
  ⟨rfl, rfl, rfl,
   phases_ordered_spec qTrig [EntityRenderer.Brush] demoCam
     (⟨256, 64, [], []⟩ : DynamicUniformBuffer (Mat4 ℚ)) []
     (⟨256, 16, [], []⟩ : DynamicUniformBuffer Nat) ([] : List Nat) 0
     ([] : List (ClientEntity ℚ)) demoTrace rfl
     4 6 (by decide) (by decide) rfl rfl⟩

end Richter
